import Mathlib

/-!
Verification of the clipboard-driven Russian reading pipeline.

The development shallowly embeds the core of the program: the language
detector (`is_russian_text`), the enrichment pipeline around
`text_to_speech_russian` (stress annotation, translation, morphological
analysis, per-word re-translation), the audio post-processing fallback,
the audio playback loop (`play_audio`), the clipboard watcher loop
(`WorkerThread.run`, modelled by `tick`/`countTriggers`), and the word
history store (`add_word_to_history` / `save_word_history` /
`load_word_history`).

External collaborators (clipboard, tsnorm normalizer, deep_translator,
pymorphy3, gTTS, pydub, the audio player process) are modelled as
parameters: a fallible provider is a function into `Except Unit _`,
mirroring a Python call that either returns or raises.  Python floats
(timestamps, cooldowns) are modelled by `ℚ`; Python string truthiness
(`if s:`) by `s ≠ ""`.
-/

namespace RuReader

/-! ### Character classes and Python string helpers

`pyIsSpace` models the whitespace class stripped by Python's `str.strip`
(restricted to the ASCII whitespace repertoire).  `pyStrip` models
`str.strip()` itself. -/

def pyIsSpace (c : Char) : Bool :=
  c = ' ' || c = '\t' || c = '\n' || c = '\r' || c.toNat = 0xb || c.toNat = 0xc

def pyStrip (s : String) : String :=
  ⟨((s.data.dropWhile pyIsSpace).reverse.dropWhile pyIsSpace).reverse⟩

/-- A character matched by the source's regex `[Ѐ-ӿ]`
(`is_russian_text`, line 219). -/
def isCyrillicChar (c : Char) : Bool :=
  decide (0x400 ≤ c.toNat) && decide (c.toNat ≤ 0x4FF)

/-- `\w` of Python's `re` module, restricted to the ASCII and Cyrillic
repertoire the program deals with: alphanumeric characters, the
underscore, and the Cyrillic block. -/
def pyWordChar (c : Char) : Bool :=
  c.isAlphanum || c = '_' || isCyrillicChar c

/-- A character matched by the source's regex `[^\s\d\W]`
(`is_russian_text`, line 221): a word character that is neither a digit
nor whitespace. -/
def isLetterLikeChar (c : Char) : Bool :=
  !pyIsSpace c && !c.isDigit && pyWordChar c

/-! ### Language detector

`WorkerThread.is_russian_text` (lines 213-227).  The Python code compares
`len(russian_chars) / len(total_letters) > 0.5` with float division of two
list lengths; over natural-number counts that comparison is exactly
`total < 2 * russian`, which is the form used here (the C5 theorem proves
the equivalence with the rational ratio). -/

def is_russian_text (text : String) : Bool :=
  if text = "" ∨ pyStrip text = "" then false
  else if text.data.filter isLetterLikeChar = [] then false
  else decide ((text.data.filter isLetterLikeChar).length <
    2 * (text.data.filter isCyrillicChar).length)

theorem mem_dropWhile_of_neg {α : Type} {p : α → Bool} {c : α} :
    ∀ {l : List α}, c ∈ l → p c = false → c ∈ l.dropWhile p
  | a :: l, hc, hns => by
    by_cases ha : p a
    · rw [List.dropWhile_cons_of_pos ha]
      rcases List.mem_cons.mp hc with rfl | hmem
      · rw [ha] at hns; cases hns
      · exact mem_dropWhile_of_neg hmem hns
    · rw [List.dropWhile_cons_of_neg ha]
      exact hc

theorem pyStrip_ne_empty {s : String} {c : Char} (hc : c ∈ s.data) (hns : pyIsSpace c = false) :
    pyStrip s ≠ "" := by
  intro h
  have hdata : ((s.data.dropWhile pyIsSpace).reverse.dropWhile pyIsSpace).reverse = [] :=
    congrArg String.data h
  rw [List.reverse_eq_nil_iff] at hdata
  have h1 : c ∈ s.data.dropWhile pyIsSpace := mem_dropWhile_of_neg hc hns
  have h2 : c ∈ (s.data.dropWhile pyIsSpace).reverse := List.mem_reverse.mpr h1
  have := List.dropWhile_eq_nil_iff.mp hdata c h2
  rw [this] at hns
  cases hns

theorem isLetterLike_not_space {c : Char} (h : isLetterLikeChar c = true) :
    pyIsSpace c = false := by
  cases hsp : pyIsSpace c
  · rfl
  · unfold isLetterLikeChar at h
    rw [hsp] at h
    simp at h

theorem ratio_gt_half_iff {r t : ℕ} (ht : 0 < t) :
    ((r : ℚ) / (t : ℚ) > 1 / 2) ↔ t < 2 * r := by
  rw [gt_iff_lt, div_lt_div_iff₀ (by norm_num) (by exact_mod_cast ht), one_mul, mul_comm]
  exact_mod_cast Iff.rfl

/-- C5: the language detector returns false without raising when the text
has zero letter-like characters (including empty and whitespace-only
input); otherwise it returns true iff the number of Cyrillic characters
divided by the number of letter-like characters is strictly greater than
0.5; and it returns false for every text with zero Cyrillic letters. -/
theorem c5_language_detector :
    (∀ text : String, text.data.filter isLetterLikeChar = [] →
      is_russian_text text = false) ∧
    (∀ text : String, text.data.filter isLetterLikeChar ≠ [] →
      (is_russian_text text = true ↔
        ((text.data.filter isCyrillicChar).length : ℚ) /
          ((text.data.filter isLetterLikeChar).length : ℚ) > 1 / 2)) ∧
    (∀ text : String, text.data.filter isCyrillicChar = [] →
      is_russian_text text = false) := by
  refine ⟨?_, ?_, ?_⟩
  · intro text h
    unfold is_russian_text
    rw [h]
    simp
  · intro text h
    obtain ⟨c, hc, hlc⟩ : ∃ c ∈ text.data, isLetterLikeChar c = true := by
      by_contra hcon
      push_neg at hcon
      exact h (List.filter_eq_nil_iff.mpr (by simpa using hcon))
    have hne : text ≠ "" := by
      intro he
      rw [he] at hc
      cases hc
    have hs : pyStrip text ≠ "" := pyStrip_ne_empty hc (isLetterLike_not_space hlc)
    have hpos : 0 < (text.data.filter isLetterLikeChar).length := List.length_pos.mpr h
    unfold is_russian_text
    rw [if_neg (by tauto), if_neg h, decide_eq_true_eq, ratio_gt_half_iff hpos]
  · intro text h3
    by_cases h1 : text = "" ∨ pyStrip text = ""
    · unfold is_russian_text
      rw [if_pos h1]
    · by_cases h2 : text.data.filter isLetterLikeChar = []
      · unfold is_russian_text
        rw [if_neg h1, if_pos h2]
      · unfold is_russian_text
        rw [if_neg h1, if_neg h2, h3]
        simp

/-- C5 witness: the detector evaluated on whitespace-only input, on a
majority-Cyrillic word, and on a Cyrillic-free word. -/
theorem c5_language_detector_witness :
    is_russian_text "   " = false ∧
    is_russian_text "Привет" = true ∧
    is_russian_text "hello" = false :=
  ⟨c5_language_detector.1 "   " (by decide),
   (c5_language_detector.2.1 "Привет" (by decide)).mpr (by
     show ((("Привет".data.filter isCyrillicChar).length : ℚ) /
       (("Привет".data.filter isLetterLikeChar).length : ℚ)) > 1 / 2
     norm_num [show ("Привет".data.filter isCyrillicChar).length = 6 from by decide,
       show ("Привет".data.filter isLetterLikeChar).length = 6 from by decide]),
   c5_language_detector.2.2 "hello" (by decide)⟩

/-! ### Clipboard watcher state machine

`WorkerThread.run` (lines 412-469).  A poll tick reads the clipboard
content `c` at time `t`; `triggerCond` is the source's trigger test
(lines 428-431), and `tick` is one iteration of the loop body.  An
unexpected error escaping the processing section is modelled by the
`raises` flag: `tick` then returns `.error s`, mirroring the exception
propagating to the loop's outer handler (line 465), whose `finally`
block only emits status signals and never touches `is_processing`. -/

structure WatcherState where
  last_content : String
  last_process_time : ℚ
  processed_count : ℕ
  is_processing : Bool
deriving DecidableEq

/-- Initial worker state (`WorkerThread.__init__`, lines 147-150). -/
def initState : WatcherState :=
  { last_content := "", last_process_time := 0, processed_count := 0, is_processing := false }

/-- The trigger test of lines 428-431, in the source's order:
`current_content and current_content != self.last_content and
current_content.strip() != "" and
(current_time - self.last_process_time) >= self.process_cooldown`. -/
def triggerCond (process_cooldown : ℚ) (s : WatcherState) (c : String) (t : ℚ) : Bool :=
  decide (c ≠ "") && decide (c ≠ s.last_content) && decide (pyStrip c ≠ "") &&
    decide (process_cooldown ≤ t - s.last_process_time)

/-- One iteration of the monitoring loop (lines 419-463).  On a trigger
the busy flag is set and `last_content`/`last_process_time` recorded
before processing; Russian content additionally bumps the processed
counter and runs speech/playback, during which an unexpected error
(`raises`) escapes with the busy flag still set; on the normal path the
flag is cleared at the end of the iteration (line 461). -/
def tick (process_cooldown : ℚ) (s : WatcherState) (c : String) (t : ℚ) (raises : Bool) :
    Except WatcherState WatcherState :=
  if s.is_processing then .ok s
  else if triggerCond process_cooldown s c t then
    if is_russian_text c then
      if raises then .error ⟨c, t, s.processed_count + 1, true⟩
      else .ok ⟨c, t, s.processed_count + 1, false⟩
    else .ok ⟨c, t, s.processed_count, false⟩
  else .ok s

/-- Whether the loop aborted with an escaped exception. -/
def tickAborted : Except WatcherState WatcherState → Bool
  | .ok _ => false
  | .error _ => true

/-- The worker state after a tick, aborted or not. -/
def tickFinal : Except WatcherState WatcherState → WatcherState
  | .ok s => s
  | .error s => s

/-- The state after a normally completing tick. -/
def tickRun (process_cooldown : ℚ) (s : WatcherState) (c : String) (t : ℚ) : WatcherState :=
  tickFinal (tick process_cooldown s c t false)

structure TickIn where
  content : String
  time : ℚ
deriving DecidableEq

/-- Number of processing triggers over a sequence of poll ticks. -/
def countTriggers (process_cooldown : ℚ) : WatcherState → List TickIn → ℕ
  | _, [] => 0
  | s, i :: is =>
    (if triggerCond process_cooldown s i.content i.time then 1 else 0) +
      countTriggers process_cooldown (tickRun process_cooldown s i.content i.time) is

theorem triggerCond_iff (process_cooldown : ℚ) (s : WatcherState) (c : String) (t : ℚ) :
    triggerCond process_cooldown s c t = true ↔
      (pyStrip c ≠ "" ∧ c ≠ s.last_content ∧
        process_cooldown ≤ t - s.last_process_time) := by
  unfold triggerCond
  simp only [Bool.and_eq_true, decide_eq_true_eq]
  constructor
  · rintro ⟨⟨⟨_, h2⟩, h3⟩, h4⟩
    exact ⟨h3, h2, h4⟩
  · rintro ⟨h3, h2, h4⟩
    have h1 : c ≠ "" := by
      intro he
      rw [he] at h3
      exact h3 rfl
    exact ⟨⟨⟨h1, h2⟩, h3⟩, h4⟩

/-- C1: a poll tick triggers processing iff the clipboard content is
non-empty after trimming whitespace, differs from the last seen content,
and the cooldown has elapsed; and on the clipboard sequence
`["А", "А", "Б"]` with cooldown 0 exactly 2 triggers occur, for any
nondecreasing sequence of poll times (i.e. regardless of poll
interval). -/
theorem c1_watcher_trigger :
    (∀ (process_cooldown : ℚ) (s : WatcherState) (c : String) (t : ℚ),
      triggerCond process_cooldown s c t = true ↔
        (pyStrip c ≠ "" ∧ c ≠ s.last_content ∧
          process_cooldown ≤ t - s.last_process_time)) ∧
    (∀ t1 t2 t3 : ℚ, 0 ≤ t1 → t1 ≤ t2 → t2 ≤ t3 →
      countTriggers 0 initState [⟨"А", t1⟩, ⟨"А", t2⟩, ⟨"Б", t3⟩] = 2) := by
  refine ⟨triggerCond_iff, ?_⟩
  intro t1 t2 t3 h1 h2 h3
  have e1 : triggerCond 0 initState "А" t1 = true :=
    (triggerCond_iff _ _ _ _).mpr
      ⟨by decide, by decide, by change (0:ℚ) ≤ t1 - 0; linarith⟩
  have hru : is_russian_text "А" = true := by decide
  have s1 : tickRun 0 initState "А" t1 = ⟨"А", t1, 1, false⟩ := by
    unfold tickRun tickFinal tick
    rw [if_neg (by decide), if_pos e1, if_pos hru, if_neg (by decide)]
    rfl
  have e2 : triggerCond 0 (⟨"А", t1, 1, false⟩ : WatcherState) "А" t2 = false := rfl
  have s2 : tickRun 0 (⟨"А", t1, 1, false⟩ : WatcherState) "А" t2 = ⟨"А", t1, 1, false⟩ := by
    unfold tickRun tickFinal tick
    rw [if_neg (by exact Bool.false_ne_true), if_neg (by rw [e2]; exact Bool.false_ne_true)]
  have e3 : triggerCond 0 (⟨"А", t1, 1, false⟩ : WatcherState) "Б" t3 = true :=
    (triggerCond_iff _ _ _ _).mpr
      ⟨by decide, by change ("Б" : String) ≠ "А"; decide,
        by change (0:ℚ) ≤ t3 - t1; linarith⟩
  simp only [countTriggers, e1, s1, e2, s2, e3, if_true, if_false]
  norm_num

/-- C1 witness: the three-element clipboard sequence at concrete times
0, 1, 2 produces exactly 2 triggers. -/
theorem c1_watcher_trigger_witness :
    countTriggers 0 initState [⟨"А", 0⟩, ⟨"А", 1⟩, ⟨"Б", 2⟩] = 2 :=
  c1_watcher_trigger.2 0 1 2 (by norm_num) (by norm_num) (by norm_num)

/-- C2 counterexample: on a qualifying Russian tick during which
processing raises an unexpected error, the loop aborts (the exception
reaches the loop's outer handler) and the busy flag is still set at the
end of the tick — it is not cleared in a finally-style step. -/
theorem c2_busy_flag_counterexample :
    tickAborted (tick 0 initState "А" 1 true) = true ∧
    (tickFinal (tick 0 initState "А" 1 true)).is_processing = true := by
  have e1 : triggerCond 0 initState "А" 1 = true :=
    (triggerCond_iff _ _ _ _).mpr ⟨by decide, by decide, by norm_num [initState]⟩
  have hru : is_russian_text "А" = true := by decide
  have ht : tick 0 initState "А" 1 true =
      .error ⟨"А", 1, 1, true⟩ := by
    unfold tick
    rw [if_neg (by decide), if_pos e1, if_pos hru, if_pos rfl]
    rfl
  rw [ht]
  exact ⟨rfl, rfl⟩

/-- C2 (amended): on every tick that completes without an unexpected
error, the busy flag is clear again at the end of the tick; the clearing
happens on the normal control path, not in a `finally` block. -/
theorem c2_busy_flag (process_cooldown : ℚ) (s : WatcherState) (c : String) (t : ℚ)
    (hb : s.is_processing = false) :
    (tickFinal (tick process_cooldown s c t false)).is_processing = false := by
  unfold tick
  split
  · exact hb
  · split
    · split
      · rfl
      · rfl
    · exact hb

/-- C2 witness: the amended statement evaluated on a concrete
normally-completing tick. -/
theorem c2_busy_flag_witness :
    (tickFinal (tick 0 initState "А" 1 false)).is_processing = false :=
  c2_busy_flag 0 initState "А" 1 rfl

/-- C7 counterexample: a qualifying non-Russian tick updates
`last_content` and `last_process_time` but leaves `processed_count`
unchanged — the processed counter is not updated "as if the content had
been seen", refuting the claim's counter clause. -/
theorem c7_non_target_counterexample :
    triggerCond 0 initState "hello" 1 = true ∧
    is_russian_text "hello" = false ∧
    tickRun 0 initState "hello" 1 =
      ⟨"hello", 1, initState.processed_count, false⟩ ∧
    initState.processed_count = 0 := by
  have e1 : triggerCond 0 initState "hello" 1 = true :=
    (triggerCond_iff _ _ _ _).mpr ⟨by decide, by decide, by norm_num [initState]⟩
  have hru : is_russian_text "hello" = false := by decide
  refine ⟨e1, hru, ?_, rfl⟩
  unfold tickRun tickFinal tick
  rw [if_neg (by decide), if_pos e1, if_neg (by rw [hru]; exact Bool.false_ne_true)]

/-- C7 (amended): a qualifying tick whose content is not Russian skips
the pipeline but still records `last_content` and `last_process_time`
(leaving the processed counter unchanged), and thereby consumes the
debounce slot: the same content can never re-trigger on a later tick. -/
theorem c7_non_target_tick (process_cooldown : ℚ) (s : WatcherState) (c : String) (t : ℚ)
    (hb : s.is_processing = false) (htr : triggerCond process_cooldown s c t = true)
    (hru : is_russian_text c = false) :
    tick process_cooldown s c t false = .ok ⟨c, t, s.processed_count, false⟩ ∧
    ∀ t' : ℚ, triggerCond process_cooldown
      (⟨c, t, s.processed_count, false⟩ : WatcherState) c t' = false := by
  constructor
  · simp [tick, hb, htr, hru]
  · intro t'
    have : decide (c ≠ (⟨c, t, s.processed_count, false⟩ : WatcherState).last_content)
        = false := by simp
    unfold triggerCond
    rw [this]
    simp

/-- C7 witness: the amended statement evaluated on a concrete
non-Russian qualifying tick. -/
theorem c7_non_target_tick_witness :
    tick 0 initState "hello" 1 false = .ok ⟨"hello", 1, 0, false⟩ ∧
    ∀ t' : ℚ, triggerCond 0 (⟨"hello", 1, 0, false⟩ : WatcherState) "hello" t' = false :=
  c7_non_target_tick 0 initState "hello" 1 rfl
    ((triggerCond_iff _ _ _ _).mpr ⟨by decide, by decide, by norm_num [initState]⟩)
    (by decide)

/-! ### Word history store

`MainWindow.load_word_history` / `save_word_history` /
`add_word_to_history` (lines 497-530).  `word_history` is a Python
`OrderedDict`, modelled as an association list where assignment to an
existing key updates its value in place (`odSet`).  The durable pickle
file is modelled by `disk`: `pickle` is a lossless serialization of a
string-to-string mapping, so the serialized bytes are represented by the
table value itself (`none` = no file on disk). -/

structure HistoryStore where
  word_history : List (String × String)
  disk : Option (List (String × String))
deriving DecidableEq

/-- `OrderedDict` assignment `d[k] = v`: update the first (unique) entry
for `k` in place, else append at the end. -/
def odSet : List (String × String) → String → String → List (String × String)
  | [], k, v => [(k, v)]
  | (k1, v1) :: rest, k, v =>
    if k1 = k then (k1, v) :: rest else (k1, v1) :: odSet rest k v

/-- `save_word_history` (lines 512-523): pickle the whole table to the
history file. -/
def save_word_history (st : HistoryStore) : HistoryStore :=
  { st with disk := some st.word_history }

/-- `load_word_history` (lines 497-510): read the pickle file when it
exists; keep the fresh table otherwise. -/
def load_word_history (st : HistoryStore) : HistoryStore :=
  match st.disk with
  | some t => { st with word_history := t }
  | none => st

/-- `add_word_to_history` (lines 525-530): guard on truthiness of both
strings and on the failure sentinel, then assign and save. -/
def add_word_to_history (st : HistoryStore) (word translation : String) : HistoryStore :=
  if word ≠ "" ∧ translation ≠ "" ∧ translation ≠ "翻译失败" then
    save_word_history { st with word_history := odSet st.word_history word translation }
  else st

/-- Number of entries of the table whose key is `k`. -/
def keyCount (k : String) (l : List (String × String)) : ℕ :=
  (l.filter (fun p => p.1 == k)).length

theorem odSet_lookup (l : List (String × String)) (k v : String) :
    List.lookup k (odSet l k v) = some v := by
  induction l with
  | nil => simp [odSet, List.lookup]
  | cons p rest ih =>
    obtain ⟨k1, v1⟩ := p
    by_cases hk : k1 = k
    · subst hk
      simp [odSet, List.lookup]
    · rw [odSet, if_neg hk, List.lookup]
      have : (k == k1) = false := by
        simp [Ne.symm hk]
      rw [this]
      exact ih

theorem odSet_keys_mem (l : List (String × String)) (k v x : String)
    (hx : x ∈ (odSet l k v).map Prod.fst) : x ∈ l.map Prod.fst ∨ x = k := by
  induction l with
  | nil =>
    simp [odSet] at hx
    exact Or.inr hx
  | cons p rest ih =>
    obtain ⟨k1, v1⟩ := p
    by_cases hk : k1 = k
    · subst hk
      rw [odSet, if_pos rfl, List.map_cons] at hx
      rw [List.map_cons]
      exact Or.inl hx
    · rw [odSet, if_neg hk, List.map_cons] at hx
      rcases List.mem_cons.mp hx with rfl | hmem
      · exact Or.inl (by rw [List.map_cons]; exact List.mem_cons_self _ _)
      · rcases ih hmem with h2 | h2
        · exact Or.inl (by rw [List.map_cons]; exact List.mem_cons_of_mem _ h2)
        · exact Or.inr h2

theorem odSet_count_nodup (l : List (String × String)) (k v : String)
    (hnd : (l.map Prod.fst).Nodup) :
    keyCount k (odSet l k v) = 1 ∧ ((odSet l k v).map Prod.fst).Nodup := by
  induction l with
  | nil =>
    constructor
    · simp [keyCount, odSet]
    · simp [odSet]
  | cons p rest ih =>
    obtain ⟨k1, v1⟩ := p
    rw [List.map_cons, List.nodup_cons] at hnd
    obtain ⟨hk1, hndr⟩ := hnd
    by_cases hk : k1 = k
    · subst hk
      constructor
      · have hrest : rest.filter (fun p => p.1 == k1) = [] := by
          apply List.filter_eq_nil_iff.mpr
          intro a ha
          simp only [beq_iff_eq]
          intro hek
          apply hk1
          rw [← hek]
          exact List.mem_map.mpr ⟨a, ha, rfl⟩
        rw [odSet, if_pos rfl, keyCount, List.filter_cons]
        simp only [beq_self_eq_true, if_pos]
        rw [hrest]
        rfl
      · rw [odSet, if_pos rfl, List.map_cons, List.nodup_cons]
        exact ⟨hk1, hndr⟩
    · obtain ⟨ihc, ihn⟩ := ih hndr
      constructor
      · rw [odSet, if_neg hk, keyCount, List.filter_cons]
        have : ((k1, v1).1 == k) = false := by simp [hk]
        rw [this]
        simp only [if_neg Bool.false_ne_true]
        exact ihc
      · rw [odSet, if_neg hk, List.map_cons, List.nodup_cons]
        refine ⟨?_, ihn⟩
        intro hmem
        rcases odSet_keys_mem rest k v k1 hmem with h | h
        · exact hk1 h
        · exact hk h

/-- C3: `add` on the word history store is a no-op when either argument
is empty or the translation is the failure sentinel; otherwise it
inserts/overwrites the single entry for the word and immediately
persists the full table, and two adds for the same word leave exactly
one entry holding the later value. -/
theorem c3_history_add (st : HistoryStore) (w tr : String) :
    ((w = "" ∨ tr = "" ∨ tr = "翻译失败") → add_word_to_history st w tr = st) ∧
    (w ≠ "" → tr ≠ "" → tr ≠ "翻译失败" →
      (add_word_to_history st w tr).word_history = odSet st.word_history w tr ∧
      (add_word_to_history st w tr).disk = some (odSet st.word_history w tr)) ∧
    (∀ v1 v2 : String,
      w ≠ "" → v1 ≠ "" → v1 ≠ "翻译失败" → v2 ≠ "" → v2 ≠ "翻译失败" →
      (st.word_history.map Prod.fst).Nodup →
      keyCount w (add_word_to_history (add_word_to_history st w v1) w v2).word_history = 1 ∧
      List.lookup w (add_word_to_history (add_word_to_history st w v1) w v2).word_history
        = some v2) := by
  refine ⟨?_, ?_, ?_⟩
  · intro h
    rw [add_word_to_history, if_neg (by tauto)]
  · intro h1 h2 h3
    rw [add_word_to_history, if_pos ⟨h1, h2, h3⟩]
    exact ⟨rfl, rfl⟩
  · intro v1 v2 hw h1 h2 h3 h4 hnd
    have e1 : add_word_to_history st w v1 =
        ⟨odSet st.word_history w v1, some (odSet st.word_history w v1)⟩ := by
      rw [add_word_to_history, if_pos ⟨hw, h1, h2⟩]
      rfl
    have e2 : (add_word_to_history (add_word_to_history st w v1) w v2).word_history =
        odSet (odSet st.word_history w v1) w v2 := by
      rw [e1, add_word_to_history, if_pos ⟨hw, h3, h4⟩]
      rfl
    rw [e2]
    have hnd1 := (odSet_count_nodup st.word_history w v1 hnd).2
    exact ⟨(odSet_count_nodup _ w v2 hnd1).1, odSet_lookup _ w v2⟩

/-- C3 witness: the sentinel no-op, a first add, and an overwriting
second add, on the empty store. -/
theorem c3_history_add_witness :
    add_word_to_history ⟨[], none⟩ "слово" "翻译失败" = (⟨[], none⟩ : HistoryStore) ∧
    (add_word_to_history ⟨[], none⟩ "слово" "word").word_history = [("слово", "word")] ∧
    keyCount "слово" (add_word_to_history
      (add_word_to_history ⟨[], none⟩ "слово" "word") "слово" "translation2").word_history = 1 ∧
    List.lookup "слово" (add_word_to_history
      (add_word_to_history ⟨[], none⟩ "слово" "word") "слово" "translation2").word_history
      = some "translation2" := by
  refine ⟨?_, ?_, ?_, ?_⟩
  · exact (c3_history_add ⟨[], none⟩ "слово" "翻译失败").1 (Or.inr (Or.inr rfl))
  · exact ((c3_history_add ⟨[], none⟩ "слово" "word").2.1
      (by decide) (by decide) (by decide)).1.trans rfl
  · exact ((c3_history_add ⟨[], none⟩ "слово" "word").2.2 "word" "translation2"
      (by decide) (by decide) (by decide) (by decide) (by decide) (by simp)).1
  · exact ((c3_history_add ⟨[], none⟩ "слово" "word").2.2 "word" "translation2"
      (by decide) (by decide) (by decide) (by decide) (by decide) (by simp)).2

/-- C8: saving and then loading the word history store yields a table
equal to the one saved, for every table including the empty one. -/
theorem c8_history_roundtrip (st : HistoryStore) :
    (load_word_history (save_word_history st)).word_history = st.word_history := rfl

/-! ### Enrichment pipeline

The enrichment part of `WorkerThread.text_to_speech_russian`
(lines 313-351) together with its helpers `add_stress_marks`
(lines 229-239), `translate_russian` (lines 241-257), `tag_to_cn`
(lines 259-275) and `morphological_analysis` (lines 277-311).  A
provider call that may raise is a function into `Except Unit _`. -/

/-- A fallible external text provider (tsnorm normalizer call,
deep_translator `translate` call). -/
abbrev Provider := String → Except Unit String

/-- A fallible `pymorphy3` parse of one word: returns the most likely
parse's normal form and grammeme set. -/
abbrev MorphParseFn := String → Except Unit (String × List String)

/-- The fixed grammeme-to-Chinese table `GRAM_MAP` (lines 65-113). -/
def gramMap : List (String × String) :=
  [("NOUN", "名词"), ("NPRO", "代词"), ("VERB", "动词"), ("INFN", "不定式"),
   ("ADJF", "形容词（长形式）"), ("ADJS", "形容词（短形式）"),
   ("PRTF", "分词（长形式）"), ("PRTS", "分词（短形式）"),
   ("GRND", "副动词"), ("ADVB", "副词"), ("NUMR", "数词"), ("PREP", "介词"),
   ("CONJ", "连词"), ("PRCL", "语气词"), ("INTJ", "感叹词"),
   ("masc", "阳性"), ("femn", "阴性"), ("neut", "中性"),
   ("sing", "单数"), ("plur", "复数"),
   ("nomn", "主格"), ("gent", "属格"), ("datv", "与格"), ("accs", "宾格"),
   ("ablt", "工具格"), ("loct", "前置格"), ("voct", "呼格"),
   ("past", "过去时"), ("pres", "现在时"), ("futr", "将来时"),
   ("perf", "完成体"), ("impf", "未完成体"), ("indc", "陈述式"), ("impr", "祈使式"),
   ("1per", "第一人称"), ("2per", "第二人称"), ("3per", "第三人称"),
   ("tran", "及物"), ("intr", "不及物"), ("anim", "有生"), ("inan", "无生"),
   ("Anph", "回指代词"), ("Demn", "指示代词"), ("Ques", "疑问代词"),
   ("Rel", "关系代词"), ("Poss", "物主代词"), ("Pers", "人称代词")]

/-- Python's `str.split(' ')`: split on every single space character
(consecutive spaces yield empty pieces). -/
def pySplitSpaceAux : List Char → List Char → List String
  | [], acc => [String.mk acc.reverse]
  | c :: cs, acc =>
    if c = ' ' then String.mk acc.reverse :: pySplitSpaceAux cs []
    else pySplitSpaceAux cs (c :: acc)

def pySplitSpace (s : String) : List String :=
  pySplitSpaceAux s.data []

/-- `tag_to_cn` (lines 259-275): map each grammeme (splitting composite
grammemes on spaces) through `GRAM_MAP`, unknown codes passing through
unchanged, joined with `，`. -/
def tag_to_cn (grammemes : List String) : String :=
  String.intercalate "，"
    (grammemes.flatMap fun g =>
      (pySplitSpace g).map fun sub => (List.lookup sub gramMap).getD sub)

/-- A character matched by the source's word-token regex `[А-Яа-яЁё]+`
(line 284). -/
def isRuWordChar (c : Char) : Bool :=
  (decide (0x410 ≤ c.toNat) && decide (c.toNat ≤ 0x44F)) || c = 'Ё' || c = 'ё'

/-- Maximal runs of Russian-letter characters, accumulator-based
(`re.findall(r"[А-Яа-яЁё]+", text)`). -/
def ruRunsAux : List Char → List Char → List String
  | [], acc => if acc = [] then [] else [String.mk acc.reverse]
  | c :: cs, acc =>
    if isRuWordChar c then ruRunsAux cs (c :: acc)
    else if acc = [] then ruRunsAux cs []
    else String.mk acc.reverse :: ruRunsAux cs []

def cyrillicWords (text : String) : List String :=
  ruRunsAux text.data []

structure WordAnalysis where
  original : String
  normal_form : String
  tag_cn : String
deriving DecidableEq

/-- The per-word loop of `morphological_analysis` (lines 291-305): an
exception on any word aborts the whole analysis. -/
def analyzeWords (parse : MorphParseFn) : List String → Except Unit (List WordAnalysis)
  | [] => .ok []
  | w :: ws =>
    match parse w with
    | .error e => .error e
    | .ok (nf, gs) =>
      match analyzeWords parse ws with
      | .error e => .error e
      | .ok rest => .ok ({ original := w, normal_form := nf, tag_cn := tag_to_cn gs } :: rest)

/-- One display line of the morphology report (line 298). -/
def morphLine (r : WordAnalysis) : String :=
  r.original ++ "(" ++ r.tag_cn ++ ") →【原形】 " ++ r.normal_form

/-- `morphological_analysis` (lines 277-311): returns
`(report, success, word list)`. -/
def morphological_analysis (enabled : Bool) (analyzer : Option MorphParseFn) (text : String) :
    String × Bool × List WordAnalysis :=
  match enabled, analyzer with
  | true, some parse =>
    if cyrillicWords text = [] then ("未找到俄语单词", false, [])
    else
      match analyzeWords parse (cyrillicWords text) with
      | .ok was => (String.intercalate "\n" (was.map morphLine), true, was)
      | .error _ => ("形态学分析失败", false, [])
  | _, _ => ("", false, [])

/-- `add_stress_marks` (lines 229-239): returns `(text, success)`,
falling back to the unmodified text on failure or when disabled. -/
def add_stress_marks (enabled : Bool) (normalizer : Option Provider) (text : String) :
    String × Bool :=
  match enabled, normalizer with
  | true, some f =>
    match f text with
    | .ok t => (t, true)
    | .error _ => (text, false)
  | _, _ => (text, false)

/-- `translate_russian` (lines 241-257): truncate beyond 5000 characters
with an explicit `...` marker, return `("", false)` when disabled,
uninitialized, or on a raised error. -/
def translate_russian (enabled : Bool) (translator : Option Provider) (text : String) :
    String × Bool :=
  match enabled, translator with
  | true, some tr =>
    match tr (if text.length > 5000 then text.take 5000 ++ "..." else text) with
    | .ok t => (t, true)
    | .error _ => ("", false)
  | _, _ => ("", false)

/-- The per-word re-translation of one normal form (lines 339-348): a
raised error is caught and recorded as the failure sentinel. -/
def perWordTranslate (tr : Provider) (nf : String) : String :=
  match tr nf with
  | .ok v => v
  | .error _ => "翻译失败"

structure EnrichConfig where
  stress_mark_enabled : Bool
  translation_enabled : Bool
  morphology_enabled : Bool
deriving DecidableEq

/-- The worker's provider instances (`self.normalizer`,
`self.translator`, `self.morph_analyzer`); `none` models a provider that
was never initialized. -/
structure Providers where
  normalizer : Option Provider
  translator : Option Provider
  morph : Option MorphParseFn

/-- The payload of `result_signal` / `word_analysis_signal` built by the
enrichment part of `text_to_speech_russian` (lines 313-351): a field is
the empty string when its stage is disabled or failed. -/
structure EnrichmentResult where
  originalText : String
  stressMarkedText : String
  translatedText : String
  morphologyReport : String
  translatedWords : List (String × String)

/-- The enrichment stages of `text_to_speech_russian` (lines 313-351):
stress annotation, full-text translation, morphological analysis, and
the per-word re-translation loop, which is gated on
`if word_analysis and self.translator` (line 336) — the instance, not
the `translation_enabled` flag.  Every stage catches its own errors, so
the composition is a total function. -/
def enrich (cfg : EnrichConfig) (p : Providers) (text : String) : EnrichmentResult :=
  { originalText := text
    stressMarkedText :=
      if (add_stress_marks cfg.stress_mark_enabled p.normalizer text).2 then
        (add_stress_marks cfg.stress_mark_enabled p.normalizer text).1
      else ""
    translatedText :=
      if (translate_russian cfg.translation_enabled p.translator text).2 then
        (translate_russian cfg.translation_enabled p.translator text).1
      else ""
    morphologyReport :=
      if (morphological_analysis cfg.morphology_enabled p.morph text).2.1 then
        (morphological_analysis cfg.morphology_enabled p.morph text).1
      else ""
    translatedWords :=
      match p.translator with
      | some tr =>
        if (morphological_analysis cfg.morphology_enabled p.morph text).2.2 = [] then []
        else ((morphological_analysis cfg.morphology_enabled p.morph text).2.2).map
          fun wi => (wi.normal_form, perWordTranslate tr wi.normal_form)
      | none => [] }

/-- C4: with a translator that raises on every call, enrichment still
returns a result (it is a total function); the result carries the
stress-marked text and the morphology report whenever those stages
succeed, and the translation field is empty. -/
theorem c4_stage_independence (cfg : EnrichConfig) (p : Providers) (text : String)
    (tr : Provider) (htr : p.translator = some tr)
    (hfail : ∀ s, tr s = Except.error ()) :
    (enrich cfg p text).translatedText = "" ∧
    ((add_stress_marks cfg.stress_mark_enabled p.normalizer text).2 = true →
      (enrich cfg p text).stressMarkedText =
        (add_stress_marks cfg.stress_mark_enabled p.normalizer text).1) ∧
    ((morphological_analysis cfg.morphology_enabled p.morph text).2.1 = true →
      (enrich cfg p text).morphologyReport =
        (morphological_analysis cfg.morphology_enabled p.morph text).1) := by
  have htl : translate_russian cfg.translation_enabled p.translator text = ("", false) := by
    rw [htr]
    cases cfg.translation_enabled with
    | false => rfl
    | true =>
      show (match tr (if text.length > 5000 then text.take 5000 ++ "..." else text) with
        | Except.ok t => (t, true)
        | Except.error _ => ("", false)) = ("", false)
      rw [hfail]
  refine ⟨?_, ?_, ?_⟩
  · show (if (translate_russian cfg.translation_enabled p.translator text).2 then
      (translate_russian cfg.translation_enabled p.translator text).1 else "") = ""
    rw [htl]
    rfl
  · intro hst
    show (if (add_stress_marks cfg.stress_mark_enabled p.normalizer text).2 then
      (add_stress_marks cfg.stress_mark_enabled p.normalizer text).1 else "") = _
    rw [hst]
    rfl
  · intro hm
    show (if (morphological_analysis cfg.morphology_enabled p.morph text).2.1 then
      (morphological_analysis cfg.morphology_enabled p.morph text).1 else "") = _
    rw [hm]
    rfl

def cfgAll : EnrichConfig := ⟨true, true, true⟩

/-- A translator that raises on every call. -/
def trFail : Provider := fun _ => .error ()

/-- A demo morphological analyzer for witnesses. -/
def morphDemo : MorphParseFn := fun w => .ok (w, ["NOUN"])

def pDemo : Providers :=
  ⟨some fun s => .ok ("<" ++ s ++ ">"), some trFail, some morphDemo⟩

/-- C4 witness: enrichment of `"Дом"` with an always-raising translator
still carries the stress-marked text and the morphology report. -/
theorem c4_stage_independence_witness :
    (enrich cfgAll pDemo "Дом").translatedText = "" ∧
    (enrich cfgAll pDemo "Дом").stressMarkedText = "<Дом>" ∧
    (enrich cfgAll pDemo "Дом").morphologyReport = "Дом(名词) →【原形】 Дом" := by
  obtain ⟨h1, h2, h3⟩ := c4_stage_independence cfgAll pDemo "Дом" trFail rfl (fun _ => rfl)
  exact ⟨h1, (h2 (by decide)).trans (by decide), (h3 (by decide)).trans (by decide)⟩

/-- C9: the per-word re-translation is gated only on a translator
instance existing and the morphological analysis having produced at
least one word: whenever both hold, every normal form is individually
translated (with the failure sentinel on a per-word error), for any
value of the `translation_enabled` flag; the flag being false empties
only the full-text translation; and without a translator instance no
per-word translation happens. -/
theorem c9_per_word_gating :
    (∀ (cfg : EnrichConfig) (p : Providers) (text : String) (tr : Provider),
      p.translator = some tr →
      (morphological_analysis cfg.morphology_enabled p.morph text).2.2 ≠ [] →
      (enrich cfg p text).translatedWords =
        ((morphological_analysis cfg.morphology_enabled p.morph text).2.2).map
          fun wi => (wi.normal_form, perWordTranslate tr wi.normal_form)) ∧
    (∀ (cfg : EnrichConfig) (p : Providers) (text : String),
      cfg.translation_enabled = false →
      (enrich cfg p text).translatedText = "") ∧
    (∀ (cfg : EnrichConfig) (p : Providers) (text : String),
      p.translator = none →
      (enrich cfg p text).translatedWords = []) := by
  refine ⟨?_, ?_, ?_⟩
  · intro cfg p text tr htr hwa
    show (match p.translator with
      | some tr =>
        if (morphological_analysis cfg.morphology_enabled p.morph text).2.2 = [] then []
        else ((morphological_analysis cfg.morphology_enabled p.morph text).2.2).map
          fun (wi : WordAnalysis) => (wi.normal_form, perWordTranslate tr wi.normal_form)
      | none => []) = _
    rw [htr]
    show (if (morphological_analysis cfg.morphology_enabled p.morph text).2.2 = [] then []
      else ((morphological_analysis cfg.morphology_enabled p.morph text).2.2).map
        fun (wi : WordAnalysis) => (wi.normal_form, perWordTranslate tr wi.normal_form)) = _
    rw [if_neg hwa]
  · intro cfg p text hflag
    have htl : translate_russian cfg.translation_enabled p.translator text = ("", false) := by
      rw [hflag]
      cases p.translator <;> rfl
    show (if (translate_russian cfg.translation_enabled p.translator text).2 then
      (translate_russian cfg.translation_enabled p.translator text).1 else "") = ""
    rw [htl]
    rfl
  · intro cfg p text hnone
    show (match p.translator with
      | some tr =>
        if (morphological_analysis cfg.morphology_enabled p.morph text).2.2 = [] then []
        else ((morphological_analysis cfg.morphology_enabled p.morph text).2.2).map
          fun (wi : WordAnalysis) => (wi.normal_form, perWordTranslate tr wi.normal_form)
      | none => []) = []
    rw [hnone]

def cfgNoTr : EnrichConfig := ⟨true, false, true⟩

/-- A per-word translator failing on exactly one normal form. -/
def trPartial : Provider :=
  fun s => if s = "дом" then .error () else .ok ("T" ++ s)

/-- A demo analyzer producing lower-case normal forms. -/
def morphTwo : MorphParseFn :=
  fun w => .ok (if w = "Дом" then "дом" else "река", ["NOUN"])

def pPartial : Providers := ⟨none, some trPartial, some morphTwo⟩

/-- C9 witness: with the translation flag off but a translator instance
present, both normal forms of `"Дом Река"` are individually translated
(one failing with the sentinel) while the full-text translation stays
empty. -/
theorem c9_per_word_gating_witness :
    (enrich cfgNoTr pPartial "Дом Река").translatedWords =
      [("дом", "翻译失败"), ("река", "Tрека")] ∧
    (enrich cfgNoTr pPartial "Дом Река").translatedText = "" :=
  ⟨(c9_per_word_gating.1 cfgNoTr pPartial "Дом Река" trPartial rfl
      (by decide)).trans (by decide),
   c9_per_word_gating.2.1 cfgNoTr pPartial "Дом Река" rfl⟩

/-! ### Audio post-processing and fallback

The audio part of `text_to_speech_russian` (lines 353-378): synthesize
to a temporary file, load, apply gain, normalize, export to the final
path and remove the temporary file; on any raised error, fall back to
synthesizing the unmodified text directly to the final path; only a
second failure is an error-level event. -/

structure AudioEnv where
  synthSave : String → Except Unit Unit
  loadTemp : Except Unit Unit
  applyGain : Except Unit Unit
  normalizeAudio : Except Unit Unit
  exportFinal : Except Unit Unit
  removeTemp : Except Unit Unit

/-- The enhanced tier (lines 354-366): each step may raise. -/
def enhancedPath (env : AudioEnv) (tws : String) : Except Unit Unit :=
  match env.synthSave tws with
  | .error e => .error e
  | .ok _ =>
    match env.loadTemp with
    | .error e => .error e
    | .ok _ =>
      match env.applyGain with
      | .error e => .error e
      | .ok _ =>
        match env.normalizeAudio with
        | .error e => .error e
        | .ok _ =>
          match env.exportFinal with
          | .error e => .error e
          | .ok _ => env.removeTemp

/-- What ends up at the final audio path. -/
inductive FinalAudio where
  | noFile
  | enhanced (srcText : String)
  | plain (srcText : String)
deriving DecidableEq

structure AudioOutcome where
  success : Bool
  stressFlagReturned : Bool
  final : FinalAudio
  warnLogged : Bool
  errorLogged : Bool
deriving DecidableEq

/-- The audio tiers of `text_to_speech_russian` (lines 353-378): try the
enhanced path on the stress-marked text; on failure, log a warning and
synthesize the unmodified `text` directly to the final path; on a second
failure, log an error and report failure. -/
def text_to_speech_audio (env : AudioEnv) (text tws : String) (stress_added : Bool) :
    AudioOutcome :=
  match enhancedPath env tws with
  | .ok _ =>
    { success := true, stressFlagReturned := stress_added, final := .enhanced tws
      warnLogged := false, errorLogged := false }
  | .error _ =>
    match env.synthSave text with
    | .ok _ =>
      { success := true, stressFlagReturned := false, final := .plain text
        warnLogged := true, errorLogged := false }
    | .error _ =>
      { success := false, stressFlagReturned := false, final := .noFile
        warnLogged := true, errorLogged := true }

/-- C6: if any step of the enhanced audio path fails, the enhancement is
abandoned and the fallback synthesizes the unmodified text directly to
the final path; the operation succeeds iff either tier succeeds, and an
error-level notification is emitted iff both tiers fail. -/
theorem c6_audio_fallback (env : AudioEnv) (text tws : String) (sa : Bool) :
    ((text_to_speech_audio env text tws sa).success = true ↔
      (enhancedPath env tws = .ok () ∨ env.synthSave text = .ok ())) ∧
    (enhancedPath env tws ≠ .ok () → env.synthSave text = .ok () →
      (text_to_speech_audio env text tws sa).final = .plain text ∧
      (text_to_speech_audio env text tws sa).success = true) ∧
    ((text_to_speech_audio env text tws sa).errorLogged = true ↔
      (enhancedPath env tws ≠ .ok () ∧ env.synthSave text ≠ .ok ())) := by
  cases henh : enhancedPath env tws with
  | ok u =>
    cases u
    simp [text_to_speech_audio, henh]
  | error e =>
    cases e
    cases hfs : env.synthSave text with
    | ok u =>
      cases u
      simp [text_to_speech_audio, henh, hfs]
    | error e2 =>
      cases e2
      simp [text_to_speech_audio, henh, hfs]

/-- An environment whose synthesis succeeds only for the plain text. -/
def envHalf : AudioEnv :=
  { synthSave := fun s => if s = "тест" then .ok () else .error ()
    loadTemp := .ok (), applyGain := .ok (), normalizeAudio := .ok ()
    exportFinal := .ok (), removeTemp := .ok () }

/-- C6 witness: when synthesis of the stress-marked text fails, the
fallback writes the plain text to the final path and the operation still
succeeds. -/
theorem c6_audio_fallback_witness :
    (text_to_speech_audio envHalf "тест" "те́ст" true).success = true ∧
    (text_to_speech_audio envHalf "тест" "те́ст" true).final = .plain "тест" := by
  have hne : enhancedPath envHalf "те́ст" ≠ Except.ok () := by
    intro h
    rw [show enhancedPath envHalf "те́ст" = Except.error () from rfl] at h
    cases h
  exact ⟨(c6_audio_fallback envHalf "тест" "те́ст" true).1.mpr (Or.inr rfl),
    ((c6_audio_fallback envHalf "тест" "те́ст" true).2.1 hne rfl).1⟩

/-! ### Audio playback

`play_audio` (lines 380-410): the player process is run `play_times`
times in a loop; `result` holds only the last run's outcome, so the
returned success flag and the reported stderr come from the final
repetition alone.  A run list element is the `subprocess.run` result of
one repetition; an empty run list models `play_times = 0`, where the
unbound `result` raises a `NameError` caught by the handler. -/

structure ProcResult where
  returncode : Int
  stderr : String
deriving DecidableEq

/-- The playback loop: `result` is overwritten on every iteration. -/
def playLoopLast : Option ProcResult → List ProcResult → Option ProcResult
  | acc, [] => acc
  | _, r :: rs => playLoopLast (some r) rs

/-- `play_audio` (lines 380-410): returns `(success, error message)`. -/
def play_audio (runs : List ProcResult) : Bool × Option String :=
  match playLoopLast none runs with
  | none => (false, some "播放过程中出错")
  | some r => if r.returncode = 0 then (true, none) else (false, some r.stderr)

theorem playLoopLast_eq_getLast (l : List ProcResult) (acc : Option ProcResult)
    (hne : l ≠ []) : playLoopLast acc l = l.getLast? := by
  induction l generalizing acc with
  | nil => exact absurd rfl hne
  | cons x xs ih =>
    cases xs with
    | nil => rfl
    | cons y ys =>
      rw [show playLoopLast acc (x :: y :: ys) = playLoopLast (some x) (y :: ys) from rfl,
        ih (some x) (by simp), List.getLast?_cons_cons]

/-- C10: for every non-empty run list (repeat count ≥ 1), playback
reports success iff the final repetition's player process exited with
status 0; runs differing only in earlier repetitions produce the same
result, so an earlier failed exit status is neither reported nor
reflected. -/
theorem c10_playback_last_run (runs : List ProcResult) (r : ProcResult)
    (hlast : runs.getLast? = some r) :
    ((play_audio runs).1 = true ↔ r.returncode = 0) ∧
    (∀ runs' : List ProcResult, runs'.getLast? = some r →
      play_audio runs' = play_audio runs) := by
  have hne : runs ≠ [] := by
    intro h
    rw [h] at hlast
    cases hlast
  have he : play_audio runs =
      if r.returncode = 0 then (true, none) else (false, some r.stderr) := by
    unfold play_audio
    rw [playLoopLast_eq_getLast runs none hne, hlast]
  constructor
  · rw [he]
    by_cases h0 : r.returncode = 0
    · simp [h0]
    · simp [h0]
  · intro runs' h2
    have hne2 : runs' ≠ [] := by
      intro h
      rw [h] at h2
      cases h2
    have he2 : play_audio runs' =
        if r.returncode = 0 then (true, none) else (false, some r.stderr) := by
      unfold play_audio
      rw [playLoopLast_eq_getLast runs' none hne2, h2]
    rw [he, he2]

/-- C10 witness: a failed first repetition followed by a successful
final repetition reports success, identically to a run where the first
repetition also succeeded. -/
theorem c10_playback_last_run_witness :
    ((play_audio [⟨1, "boom"⟩, ⟨0, ""⟩]).1 = true) ∧
    play_audio [⟨0, "x"⟩, ⟨0, ""⟩] = play_audio [⟨1, "boom"⟩, ⟨0, ""⟩] :=
  ⟨(c10_playback_last_run [⟨1, "boom"⟩, ⟨0, ""⟩] ⟨0, ""⟩ rfl).1.mpr rfl,
   (c10_playback_last_run [⟨1, "boom"⟩, ⟨0, ""⟩] ⟨0, ""⟩ rfl).2 [⟨0, "x"⟩, ⟨0, ""⟩] rfl⟩

end RuReader
